import Mathlib

/- Shallow embedding of q.js (a GJS function-instrumentation / debugging
   utility): the pretty-printer, the log-line formatting, the decorator
   chain mechanism, the three instrumentation decorators, the
   dispatch/attachment resolver and the immediate value inspector. -/

/- JavaScript values, as far as the pretty-printer and the inspector need
   them.  Arrays and objects are finite trees; cyclic object graphs are
   outside the model (JSON.stringify throws on them anyway). -/

mutual

inductive JSVal where
  | undefined
  | null
  | bool (b : Bool)
  | num (n : Int)
  | str (s : String)
  | func (arity : Nat)
  | arr (elems : JSList)
  | obj (fields : JSFields)

inductive JSList where
  | nil
  | cons (v : JSVal) (tl : JSList)

inductive JSFields where
  | nil
  | cons (k : String) (v : JSVal) (tl : JSFields)

end

def hexDigit (n : Nat) : Char :=
  if n < 10 then Char.ofNat (48 + n) else Char.ofNat (87 + n)

def jsonEscapeChar (c : Char) : String :=
  if c = '"' then ("\\\"")
  else if c = '\\' then ("\\\\")
  else if c = '\n' then ("\\n")
  else if c = '\t' then ("\\t")
  else if c = '\r' then ("\\r")
  else if c = Char.ofNat 8 then ("\\b")
  else if c = Char.ofNat 12 then ("\\f")
  else if c.toNat < 32 then
    String.mk ['\\', 'u', '0', '0', hexDigit (c.toNat / 16), hexDigit (c.toNat % 16)]
  else String.mk [c]

def jsonQuote (s : String) : String :=
  "\"" ++ String.join (s.toList.map jsonEscapeChar) ++ "\""

/- JSON.stringify.  It returns no string at all (undefined) on undefined
   and on functions; inside arrays such elements render as null, inside
   objects the member is skipped. -/

mutual

def jsonStringify : JSVal → Option String
  | .undefined => none
  | .null => some ("null")
  | .bool b => some (if b then ("true") else ("false"))
  | .num n => some (toString n)
  | .str s => some (jsonQuote s)
  | .func _ => none
  | .arr l => some ("[" ++ String.intercalate (",") (jsonArrParts l) ++ "]")
  | .obj fs => some ("\x7b" ++ String.intercalate (",") (jsonObjParts fs) ++ "\x7d")

def jsonArrParts : JSList → List String
  | .nil => []
  | .cons v tl => ((jsonStringify v).getD ("null")) :: jsonArrParts tl

def jsonObjParts : JSFields → List String
  | .nil => []
  | .cons k v tl =>
    match jsonStringify v with
    | some s => (jsonQuote k ++ ":" ++ s) :: jsonObjParts tl
    | none => jsonObjParts tl

end

/- String conversion as performed by the + operator on the value stored in
   a length property (the rendering of a function's source text and of
   nested objects is host formatting; only numbers occur in practice). -/

mutual

def jsDisplay : JSVal → String
  | .undefined => "undefined"
  | .null => "null"
  | .bool b => if b then ("true") else ("false")
  | .num n => toString n
  | .str s => s
  | .func _ => "function () \x7b ... \x7d"
  | .arr l => String.intercalate (",") (displayArrParts l)
  | .obj _ => "[object Object]"

def displayArrParts : JSList → List String
  | .nil => []
  | .cons v tl =>
    (match v with
     | .undefined => ""
     | .null => ""
     | w => jsDisplay w) :: displayArrParts tl

end

def jsLen : JSList → Nat
  | .nil => 0
  | .cons _ tl => jsLen tl + 1

def getOwn : JSFields → String → Option JSVal
  | .nil, _ => none
  | .cons k v tl, key => if k = key then some v else getOwn tl key

/- obj.length as read by _prettyPrint (q.js line 108).  Reading a property
   of null or undefined throws a TypeError; strings and arrays expose
   their element count, a function exposes its arity, and on a plain
   object an own "length" member is read (a stored undefined reads back
   as undefined, i.e. as absent). -/
def lengthProp : JSVal → Except String (Option JSVal)
  | .undefined => .error ("TypeError: undefined has no properties")
  | .null => .error ("TypeError: null has no properties")
  | .bool _ => .ok none
  | .num _ => .ok none
  | .str s => .ok (some (.num (s.length : Int)))
  | .func a => .ok (some (.num (a : Int)))
  | .arr l => .ok (some (.num (jsLen l : Int)))
  | .obj fs => .ok (match getOwn fs ("length") with
      | some .undefined => none
      | some v => some v
      | none => none)

/- _prettyPrint (q.js lines 104-111).  let retval = JSON.stringify(obj);
   when stringify yields undefined, the read retval.length on line 106
   throws; otherwise the rendering is truncated past 15 characters to its
   first 12 plus an ellipsis, and a " (length N)" suffix is appended when
   obj exposes a length. -/
def _prettyPrint (obj : JSVal) : Except String String :=
  match jsonStringify obj with
  | none => .error ("TypeError: undefined has no properties")
  | some r0 =>
    let retval := if 15 < r0.length then r0.take 12 ++ "..." else r0
    match lengthProp obj with
    | .error e => .error e
    | .ok none => .ok retval
    | .ok (some lv) => .ok (retval ++ " (length " ++ jsDisplay lv ++ ")")

/- Log-line formatting (q.js write(), lines 23-29).  Elapsed time is
   carried in integer microseconds; the float division by 1e6, the modulo
   100 and the one-decimal rounding of the %4.1f conversion are modelled
   as round-half-up on tenths of a second after reduction modulo 100
   seconds.  %4.1f right-justifies: the rendered number is padded on the
   left with spaces up to a minimal width of 4. -/

def padLeft (s : String) (w : Nat) : String :=
  String.mk (List.replicate (w - s.length) ' ') ++ s

def fmtTenths (tenths : Nat) : String :=
  toString (tenths / 10) ++ "." ++ toString (tenths % 10)

def timeMark (elapsedUs : Nat) : String :=
  padLeft (fmtTenths ((elapsedUs % 100000000 + 50000) / 100000)) 4 ++ "s "

def lineOf (tokens : List String) (elapsedUs : Nat) : String :=
  timeMark elapsedUs ++ String.intercalate (" ") tokens ++ "\n"

/- Decorator records (q.js lines 73-92).  A function object in the heap:
   plain callables have isDecorator false; a record built by
   _makeDecorator carries wraps (the inner callable), decoratedFunc (the
   innermost one), optionally a wrapper back-reference set on it by the
   next-outer record, a tag, and the decorator-local state (recursionDepth
   for trace, breakpointNum for breakBefore).  funcName is the display
   name the shim closes over; name models the read-only JS name property
   (anonymous shims have ""). -/
structure FuncObj where
  isDecorator : Bool := false
  wraps : Option Nat := none
  decoratedFunc : Option Nat := none
  wrapper : Option Nat := none
  tag : Option String := none
  recursionDepth : Int := 0
  breakpointNum : Option Nat := none
  funcName : String := ""
  name : String := ""
deriving DecidableEq

def heapGet (h : List FuncObj) (i : Nat) : FuncObj := h.getD i {}

/- Process-wide mutable state: the function heap, the DEBUG flag, the
   _breakpoints counter, the monotonic clock (microseconds since process
   start), the log sink (written lines, in order), the number of
   System.breakpoint() traps hit (the process suspension itself is not
   representable), and the containers reachable from attachment calls
   (container 0 is the global window object). -/
structure QState where
  heap : List FuncObj := []
  debug : Bool := true
  breakpoints : Nat := 0
  elapsedUs : Nat := 0
  log : List String := []
  trapped : Nat := 0
  containers : List (List (String × Option Nat)) := [[]]
deriving DecidableEq

/- write() (q.js lines 23-29): join the tokens with single spaces, prepend
   the %4.1f elapsed-seconds marker, append a newline, append to sink. -/
def write (st : QState) (tokens : List String) : QState :=
  { st with log := st.log ++ [lineOf tokens st.elapsedUs] }

/- _makeDecorator (q.js lines 80-92): mark the new function as a
   decorator; when the inner function is itself a decorator, mutate it in
   place giving it a wrapper back-reference to the new record and copy its
   decoratedFunc, else the inner function is the decoratedFunc; link
   wraps; the otherProperties (tag and local state) arrive in dec. -/
def _makeDecorator (h : List FuncObj) (innerId : Nat) (dec : FuncObj) : List FuncObj × Nat :=
  let inner := heapGet h innerId
  let newId := h.length
  let d : FuncObj := { dec with
    isDecorator := true
    wraps := some innerId
    decoratedFunc := if inner.isDecorator then inner.decoratedFunc else some innerId }
  let h1 := h ++ [d]
  (if inner.isDecorator then h1.set innerId { inner with wrapper := some newId } else h1, newId)

/- The chain walk of _isDecoratedWithTag (q.js lines 96-102), fuelled.  In
   every heap this module builds, wraps links strictly decrease, so fid+1
   steps always suffice; the termination claim is settled separately. -/
def isDecWithTagFuel (h : List FuncObj) (tag : String) : Nat → Nat → Bool
  | _, 0 => false
  | fid, fuel + 1 =>
    if (heapGet h fid).isDecorator then
      if (heapGet h fid).tag = some tag then true
      else isDecWithTagFuel h tag ((heapGet h fid).wraps.getD 0) fuel
    else false

def _isDecoratedWithTag (h : List FuncObj) (fid : Nat) (tag : String) : Bool :=
  isDecWithTagFuel h tag fid (fid + 1)

/- The decorator records visited by that walk, outermost first. -/
def chainIdsFuel (h : List FuncObj) : Nat → Nat → List Nat
  | _, 0 => []
  | fid, fuel + 1 =>
    if (heapGet h fid).isDecorator then
      fid :: chainIdsFuel h ((heapGet h fid).wraps.getD 0) fuel
    else []

def chainIds (h : List FuncObj) (fid : Nat) : List Nat := chainIdsFuel h fid (fid + 1)

def chainTags (h : List FuncObj) (fid : Nat) : List (Option String) :=
  (chainIds h fid).map (fun i => (heapGet h i).tag)

/- Acyclicity of the wraps links, in the form every state built by this
   module enjoys: each decorator record wraps a strictly earlier heap
   entry (records are allocated after what they wrap). -/
def WF (h : List FuncObj) : Prop :=
  ∀ i, i < h.length → (heapGet h i).isDecorator = true → (heapGet h i).wraps.getD 0 < i

/- _traceDecorator (q.js lines 117-138), wrap-time part: with DEBUG unset
   or the trace tag already in the chain, return the function unchanged;
   else resolve the display name and build the shim record. -/
def _traceDecorator (st : QState) (fid : Nat) (funcName : Option String) : QState × Nat :=
  if !st.debug || _isDecoratedWithTag st.heap fid ("trace") then (st, fid)
  else
    let fn :=
      match funcName with
      | some s => s
      | none =>
        if (heapGet st.heap fid).name = "" then ("anonymous function")
        else (heapGet st.heap fid).name
    let r := _makeDecorator st.heap fid { tag := some ("trace"), recursionDepth := 0, funcName := fn }
    ({ st with heap := r.1 }, r.2)

/- _timeDecorator (q.js lines 143-158), wrap-time part. -/
def _timeDecorator (st : QState) (fid : Nat) (funcName : Option String) : QState × Nat :=
  if !st.debug || _isDecoratedWithTag st.heap fid ("time") then (st, fid)
  else
    let fn :=
      match funcName with
      | some s => s
      | none =>
        if (heapGet st.heap fid).name = "" then ("anonymous function")
        else (heapGet st.heap fid).name
    let r := _makeDecorator st.heap fid { tag := some ("time"), funcName := fn }
    ({ st with heap := r.1 }, r.2)

/- _breakBeforeDecorator (q.js lines 163-175), wrap-time part; the shim
   record receives ++_breakpoints as its number. -/
def _breakBeforeDecorator (st : QState) (fid : Nat) : QState × Nat :=
  if !st.debug || _isDecoratedWithTag st.heap fid ("breakBefore") then (st, fid)
  else
    let r := _makeDecorator st.heap fid { tag := some ("breakBefore"), breakpointNum := some (st.breakpoints + 1) }
    ({ st with heap := r.1, breakpoints := st.breakpoints + 1 }, r.2)

inductive WrapOp where
  | trace
  | time
  | breakBefore
deriving DecidableEq

def tagOf : WrapOp → String
  | .trace => "trace"
  | .time => "time"
  | .breakBefore => "breakBefore"

def applyOp (st : QState) (fid : Nat) : WrapOp → QState × Nat
  | .trace => _traceDecorator st fid none
  | .time => _timeDecorator st fid none
  | .breakBefore => _breakBeforeDecorator st fid

def applySeq (st : QState) (fid : Nat) : List WrapOp → QState × Nat
  | [] => (st, fid)
  | op :: ops => applySeq (applyOp st fid op).1 (applyOp st fid op).2 ops

def setRD (st : QState) (fid : Nat) (d : Int) : QState :=
  { st with heap := st.heap.set fid { heapGet st.heap fid with recursionDepth := d } }

def breakpointTrap (st : QState) : QState := { st with trapped := st.trapped + 1 }

def mapPretty : JSList → Except String (List String)
  | .nil => .ok []
  | .cons v tl =>
    match _prettyPrint v with
    | .error e => .error e
    | .ok s =>
      match mapPretty tl with
      | .error e => .error e
      | .ok ss => .ok (s :: ss)

/- Invoking a (possibly decorated) function: the shim closures of q.js
   lines 123-137 (trace), 149-157 (time) and 167-174 (breakBefore),
   dispatched on the record's tag, delegating inward along wraps until the
   innermost plain callable, whose behaviour is the pure base (the clock
   is not advanced by it).  The trace shim increments recursionDepth on
   the record itself before anything else; on the normal path it logs the
   Leaving line and then decrements; a propagated exception leaves the
   shim at once.  System.breakpoint() is recorded in trapped. -/
def callChain (base : JSList → Except String JSVal) (args : JSList) :
    Nat → QState → Nat → QState × Except String JSVal
  | 0, st, _ => (st, .error ("InternalError: too much recursion"))
  | fuel + 1, st, fid =>
    let f := heapGet st.heap fid
    if f.isDecorator then
      let inner := f.wraps.getD 0
      if f.tag = some ("trace") then
        let depth := f.recursionDepth + 1
        let st1 := setRD st fid depth
        match mapPretty args with
        | .error e => (st1, .error e)
        | .ok argStrs =>
          let traceString :=
            f.funcName ++ "(" ++ String.intercalate (", ") argStrs ++ ")" ++
              (if 1 < depth then (" [" ++ toString depth ++ "]") else (""))
          let st2 := write st1 ["Entering", traceString]
          let res := callChain base args fuel st2 inner
          match res.2 with
          | .error e => (res.1, .error e)
          | .ok v =>
            match _prettyPrint v with
            | .error e => (res.1, .error e)
            | .ok rs =>
              let st4 := write res.1 ["Leaving", traceString, "->", rs]
              (setRD st4 fid ((heapGet st4.heap fid).recursionDepth - 1), .ok v)
      else if f.tag = some ("time") then
        let timer := st.elapsedUs
        let res := callChain base args fuel st inner
        match res.2 with
        | .error e => (res.1, .error e)
        | .ok v =>
          (write res.1 [f.funcName, "executed in", toString (res.1.elapsedUs - timer), "microseconds"], .ok v)
      else if f.tag = some ("breakBefore") then
        let st1 := write st ["Breakpoint", toString (f.breakpointNum.getD 0), "reached"]
        callChain base args fuel (breakpointTrap st1) inner
      else
        (st, .error ("InternalError: unknown decorator tag"))
    else
      (st, base args)

/- Arguments of the attachers: a function value, an identifier string, or
   a container object. -/
inductive DecArg where
  | fn (fid : Nat)
  | str (s : String)
  | objRef (oid : Nat)
deriving DecidableEq

/- Property-key coercion of a non-string argument is host formatting; only
   strings occur in practice. -/
def identOf : DecArg → String
  | .str s => s
  | .fn _ => "function"
  | .objRef _ => "[object Object]"

def getMember (cs : List (List (String × Option Nat))) (oid : Nat) (key : String) : Option Nat :=
  match (cs.getD oid []).lookup key with
  | some v => v
  | none => none

def setAssoc (l : List (String × Option Nat)) (key : String) (v : Option Nat) :
    List (String × Option Nat) :=
  match l with
  | [] => [(key, v)]
  | (k, w) :: tl => if k = key then (k, v) :: tl else (k, w) :: setAssoc tl key v

def setMember (cs : List (List (String × Option Nat))) (oid : Nat) (key : String) (v : Option Nat) :
    List (List (String × Option Nat)) :=
  cs.set oid (setAssoc (cs.getD oid []) key v)

/- The wrap-time decorators as applied by _decorate to scope[ident], which
   may be the undefined value when the member is missing: with DEBUG unset
   the guard short-circuits and hands undefined back unchanged, otherwise
   _isDecoratedWithTag dereferences undefined and throws. -/
def _traceDecoratorJS (st : QState) (fv : Option Nat) (funcName : Option String) :
    QState × Except String (Option Nat) :=
  match fv with
  | some fid =>
    match _traceDecorator st fid funcName with
    | (st1, nid) => (st1, .ok (some nid))
  | none =>
    if !st.debug then (st, .ok none)
    else (st, .error ("TypeError: undefined has no properties"))

def _timeDecoratorJS (st : QState) (fv : Option Nat) (funcName : Option String) :
    QState × Except String (Option Nat) :=
  match fv with
  | some fid =>
    match _timeDecorator st fid funcName with
    | (st1, nid) => (st1, .ok (some nid))
  | none =>
    if !st.debug then (st, .ok none)
    else (st, .error ("TypeError: undefined has no properties"))

def _breakBeforeDecoratorJS (st : QState) (fv : Option Nat) (_funcName : Option String) :
    QState × Except String (Option Nat) :=
  match fv with
  | some fid =>
    match _breakBeforeDecorator st fid with
    | (st1, nid) => (st1, .ok (some nid))
  | none =>
    if !st.debug then (st, .ok none)
    else (st, .error ("TypeError: undefined has no properties"))

def attachTo (dec : QState → Option Nat → Option String → QState × Except String (Option Nat))
    (st : QState) (oid : Nat) (ident : String) : QState × Except String (Option Nat) :=
  match dec st (getMember st.containers oid ident) (some ident) with
  | (st1, .ok v) => ({ st1 with containers := setMember st1.containers oid ident v }, .ok v)
  | (st1, .error e) => (st1, .error e)

/- _decorate (q.js lines 53-71).  Guard first: any argument count other
   than 1 or 2 throws a TypeError naming the operation before anything is
   looked up, wrapped or assigned.  One function argument: decorate it
   directly, no attachment.  One identifier: attach on the global window
   (container 0).  Two arguments: attach on the given container.  Property
   assignment on a primitive or function scope is not modelled. -/
def _decorate (name : String)
    (dec : QState → Option Nat → Option String → QState × Except String (Option Nat))
    (st : QState) (args : List DecArg) : QState × Except String (Option Nat) :=
  if args.length < 1 || 2 < args.length then
    (st, .error (name ++ "() takes one or two arguments"))
  else
    match args with
    | [.fn fid] => dec st (some fid) none
    | [a] => attachTo dec st 0 (identOf a)
    | [scopeArg, identArg] =>
      match scopeArg with
      | .objRef oid => attachTo dec st oid (identOf identArg)
      | _ => (st, .error ("TypeError: scope is not a container object"))
    | _ => (st, .error ("InternalError: unreachable"))

def trace (st : QState) (args : List DecArg) : QState × Except String (Option Nat) :=
  _decorate ("trace") _traceDecoratorJS st args

def time (st : QState) (args : List DecArg) : QState × Except String (Option Nat) :=
  _decorate ("time") _timeDecoratorJS st args

def breakBefore (st : QState) (args : List DecArg) : QState × Except String (Option Nat) :=
  _decorate ("breakBefore") _breakBeforeDecoratorJS st args

/- q (q.js lines 265-271): with DEBUG unset return the value at once with
   no side effect; otherwise log caller location and pretty-printed value,
   then return the value.  The caller location comes from the host's stack
   capture and is passed in as file and line. -/
def q (st : QState) (file : String) (line : String) (value : JSVal) :
    QState × Except String JSVal :=
  if !st.debug then (st, .ok value)
  else
    match _prettyPrint value with
    | .error e => (st, .error e)
    | .ok s => (write st [file ++ ":" ++ line ++ ": " ++ s], .ok value)

/- Concrete states used to exercise the development: a one-entry heap
   holding the plain function f, and the same after tracing it. -/

def stPlain : QState := { heap := [{ name := "f" }] }

def stTraced : QState := (applySeq stPlain 0 [WrapOp.trace]).1

def withDebug (b : Bool) (st : QState) : QState := { st with debug := b }

/- The reachable-state invariant on a decorated function: the heap is
   well-formed, the chain's tags are pairwise distinct, and every
   non-outermost record's wrapper points to the record immediately
   outside it. -/
def ChainInv (st : QState) (fid : Nat) : Prop :=
  WF st.heap ∧ fid < st.heap.length ∧ (chainTags st.heap fid).Nodup ∧
    List.Chain' (fun a b => (heapGet st.heap b).wrapper = some a) (chainIds st.heap fid)

/- The " (length N)" suffix _prettyPrint appends when the value exposes a
   length. -/
def lenSuffix (v : JSVal) : String :=
  match lengthProp v with
  | .ok (some lv) => " (length " ++ jsDisplay lv ++ ")"
  | _ => ""

def padRight (s : String) (w : Nat) : String :=
  s ++ String.mk (List.replicate (w - s.length) ' ')

/- Modelled from the claim under scrutiny for the log-line format: the
   same line but with the numeric field right-padded to 4 characters
   before the unit suffix, for comparison with lineOf. -/
def c8ClaimLine (tokens : List String) (elapsedUs : Nat) : String :=
  padRight (fmtTenths ((elapsedUs % 100000000 + 50000) / 100000)) 4 ++ "s " ++
    String.intercalate (" ") tokens ++ "\n"

/- Heap access lemmas. -/

instance (h : List FuncObj) : Decidable (WF h) :=
  inferInstanceAs (Decidable (∀ i, i < h.length →
    (heapGet h i).isDecorator = true → (heapGet h i).wraps.getD 0 < i))

theorem heapGet_out (h : List FuncObj) (i : Nat) (hi : h.length ≤ i) : heapGet h i = {} := by
  simp [heapGet, List.getD_eq_getElem?_getD, List.getElem?_eq_none hi]

theorem heapGet_append_lt (h : List FuncObj) (d : FuncObj) (i : Nat) (hi : i < h.length) :
    heapGet (h ++ [d]) i = heapGet h i := by
  simp [heapGet, List.getD_eq_getElem?_getD, List.getElem?_append_left hi]

theorem heapGet_append_self (h : List FuncObj) (d : FuncObj) :
    heapGet (h ++ [d]) h.length = d := by
  simp [heapGet, List.getD_eq_getElem?_getD, List.getElem?_concat_length]

theorem heapGet_set_ne (h : List FuncObj) (i j : Nat) (f : FuncObj) (hij : i ≠ j) :
    heapGet (h.set i f) j = heapGet h j := by
  simp [heapGet, List.getD_eq_getElem?_getD, List.getElem?_set_ne hij]

theorem heapGet_set_self (h : List FuncObj) (i : Nat) (f : FuncObj) (hi : i < h.length) :
    heapGet (h.set i f) i = f := by
  simp [heapGet, List.getD_eq_getElem?_getD, List.getElem?_set_self hi]

theorem isDec_lt (h : List FuncObj) (i : Nat) (hd : (heapGet h i).isDecorator = true) :
    i < h.length := by
  by_contra hlt
  push_neg at hlt
  rw [heapGet_out h i hlt] at hd
  exact absurd hd (by decide)

/- _makeDecorator: heap shape lemmas. -/

theorem md_snd (h : List FuncObj) (innerId : Nat) (dec : FuncObj) :
    (_makeDecorator h innerId dec).2 = h.length := rfl

theorem md_length (h : List FuncObj) (innerId : Nat) (dec : FuncObj) :
    (_makeDecorator h innerId dec).1.length = h.length + 1 := by
  unfold _makeDecorator
  by_cases hd : (heapGet h innerId).isDecorator = true <;> simp [hd]

theorem md_get_new (h : List FuncObj) (innerId : Nat) (dec : FuncObj) :
    heapGet (_makeDecorator h innerId dec).1 h.length =
      { dec with
        isDecorator := true
        wraps := some innerId
        decoratedFunc :=
          if (heapGet h innerId).isDecorator then (heapGet h innerId).decoratedFunc
          else some innerId } := by
  unfold _makeDecorator
  by_cases hd : (heapGet h innerId).isDecorator = true
  · have hlt := isDec_lt h innerId hd
    simp only [hd, if_true, if_pos]
    rw [heapGet_set_ne _ innerId h.length _ (Nat.ne_of_lt hlt), heapGet_append_self]
  · simp only [hd, if_false, Bool.false_eq_true, if_neg]
    rw [heapGet_append_self]

theorem md_get_inner_dec (h : List FuncObj) (innerId : Nat) (dec : FuncObj)
    (hd : (heapGet h innerId).isDecorator = true) :
    heapGet (_makeDecorator h innerId dec).1 innerId =
      { heapGet h innerId with wrapper := some h.length } := by
  have hlt := isDec_lt h innerId hd
  unfold _makeDecorator
  simp only [hd, if_true]
  rw [heapGet_set_self _ innerId _ (by simp only [List.length_append, List.length_cons, List.length_nil]; omega)]

theorem md_get_inner_plain (h : List FuncObj) (innerId : Nat) (dec : FuncObj)
    (hj : innerId < h.length) (hd : (heapGet h innerId).isDecorator = false) :
    heapGet (_makeDecorator h innerId dec).1 innerId = heapGet h innerId := by
  unfold _makeDecorator
  simp only [hd, Bool.false_eq_true, if_false]
  exact heapGet_append_lt h _ innerId hj

theorem md_get_old (h : List FuncObj) (innerId : Nat) (dec : FuncObj) (j : Nat)
    (hj : j < h.length) (hji : j ≠ innerId) :
    heapGet (_makeDecorator h innerId dec).1 j = heapGet h j := by
  unfold _makeDecorator
  by_cases hd : (heapGet h innerId).isDecorator = true
  · simp only [hd, if_true]
    rw [heapGet_set_ne _ innerId j _ (Ne.symm hji)]
    exact heapGet_append_lt h _ j hj
  · simp only [hd, Bool.false_eq_true, if_false]
    exact heapGet_append_lt h _ j hj

theorem md_chainFields (h : List FuncObj) (innerId : Nat) (dec : FuncObj) (j : Nat)
    (hj : j < h.length) :
    (heapGet (_makeDecorator h innerId dec).1 j).isDecorator = (heapGet h j).isDecorator ∧
    (heapGet (_makeDecorator h innerId dec).1 j).wraps = (heapGet h j).wraps ∧
    (heapGet (_makeDecorator h innerId dec).1 j).tag = (heapGet h j).tag := by
  by_cases hji : j = innerId
  · subst hji
    by_cases hd : (heapGet h j).isDecorator = true
    · rw [md_get_inner_dec h j dec hd]
      exact ⟨rfl, rfl, rfl⟩
    · rw [md_get_inner_plain h j dec hj (by simpa using hd)]
      exact ⟨rfl, rfl, rfl⟩
  · rw [md_get_old h innerId dec j hj hji]
    exact ⟨rfl, rfl, rfl⟩

theorem md_wrapper_old (h : List FuncObj) (innerId : Nat) (dec : FuncObj) (j : Nat)
    (hj : j < h.length) (hji : j ≠ innerId) :
    (heapGet (_makeDecorator h innerId dec).1 j).wrapper = (heapGet h j).wrapper := by
  rw [md_get_old h innerId dec j hj hji]

theorem WF_md (h : List FuncObj) (innerId : Nat) (dec : FuncObj)
    (hwf : WF h) (hj : innerId < h.length) :
    WF (_makeDecorator h innerId dec).1 := by
  intro i hi hd
  rw [md_length] at hi
  rcases Nat.lt_or_ge i h.length with hlt | hge
  · obtain ⟨e1, e2, _⟩ := md_chainFields h innerId dec i hlt
    rw [e2]
    rw [e1] at hd
    exact hwf i hlt hd
  · have hieq : i = h.length := by omega
    subst hieq
    rw [md_get_new]
    simpa using hj

/- Chain-walk lemmas. -/

theorem chainIdsFuel_congr (h : List FuncObj) (hwf : WF h) :
    ∀ f1 fid f2, fid < f1 → fid < f2 →
      chainIdsFuel h fid f1 = chainIdsFuel h fid f2 := by
  intro f1
  induction f1 with
  | zero => intro fid f2 h1 h2; omega
  | succ f1 ih =>
    intro fid f2 h1 h2
    cases f2 with
    | zero => omega
    | succ f2 =>
      unfold chainIdsFuel
      cases hd : (heapGet h fid).isDecorator
      · simp [hd]
      · simp only [hd, if_true]
        have hwlt : (heapGet h fid).wraps.getD 0 < fid := hwf fid (isDec_lt h fid hd) hd
        rw [ih ((heapGet h fid).wraps.getD 0) f2 (by omega) (by omega)]

theorem idwtFuel_congr (h : List FuncObj) (tag : String) (hwf : WF h) :
    ∀ f1 fid f2, fid < f1 → fid < f2 →
      isDecWithTagFuel h tag fid f1 = isDecWithTagFuel h tag fid f2 := by
  intro f1
  induction f1 with
  | zero => intro fid f2 h1 h2; omega
  | succ f1 ih =>
    intro fid f2 h1 h2
    cases f2 with
    | zero => omega
    | succ f2 =>
      unfold isDecWithTagFuel
      cases hd : (heapGet h fid).isDecorator
      · simp [hd]
      · by_cases ht : (heapGet h fid).tag = some tag
        · simp [hd, ht]
        · simp only [hd, ht, if_true, if_false]
          have hwlt : (heapGet h fid).wraps.getD 0 < fid := hwf fid (isDec_lt h fid hd) hd
          rw [ih ((heapGet h fid).wraps.getD 0) f2 (by omega) (by omega)]

theorem chainIdsFuel_mem (h : List FuncObj) (hwf : WF h) :
    ∀ fuel fid i, i ∈ chainIdsFuel h fid fuel →
      i ≤ fid ∧ (heapGet h i).isDecorator = true := by
  intro fuel
  induction fuel with
  | zero => intro fid i hi; simp [chainIdsFuel] at hi
  | succ fuel ih =>
    intro fid i hi
    unfold chainIdsFuel at hi
    cases hd : (heapGet h fid).isDecorator
    · simp [hd] at hi
    · simp only [hd, if_true, List.mem_cons] at hi
      rcases hi with rfl | hi
      · exact ⟨Nat.le_refl i, hd⟩
      · have hwlt : (heapGet h fid).wraps.getD 0 < fid := hwf fid (isDec_lt h fid hd) hd
        obtain ⟨hle, hdec⟩ := ih ((heapGet h fid).wraps.getD 0) i hi
        exact ⟨by omega, hdec⟩

theorem idwtFuel_eq_mem (h : List FuncObj) (tag : String) :
    ∀ fuel fid,
      isDecWithTagFuel h tag fid fuel = true ↔
        some tag ∈ (chainIdsFuel h fid fuel).map (fun i => (heapGet h i).tag) := by
  intro fuel
  induction fuel with
  | zero => intro fid; simp [isDecWithTagFuel, chainIdsFuel]
  | succ fuel ih =>
    intro fid
    unfold isDecWithTagFuel chainIdsFuel
    cases hd : (heapGet h fid).isDecorator
    · simp [hd]
    · by_cases ht : (heapGet h fid).tag = some tag
      · simp [hd, ht]
      · simp only [hd, ht, if_true, if_false, List.map_cons, List.mem_cons]
        rw [ih ((heapGet h fid).wraps.getD 0)]
        constructor
        · intro hm; exact Or.inr hm
        · intro hm
          rcases hm with he | hm
          · exact absurd he.symm ht
          · exact hm

theorem idwt_mem (h : List FuncObj) (fid : Nat) (tag : String) :
    _isDecoratedWithTag h fid tag = true ↔ some tag ∈ chainTags h fid :=
  idwtFuel_eq_mem h tag (fid + 1) fid

theorem chainIdsFuel_md (h : List FuncObj) (innerId : Nat) (dec : FuncObj) (hwf : WF h) :
    ∀ fuel fid, fid < h.length →
      chainIdsFuel (_makeDecorator h innerId dec).1 fid fuel = chainIdsFuel h fid fuel := by
  intro fuel
  induction fuel with
  | zero => intro fid hfid; simp [chainIdsFuel]
  | succ fuel ih =>
    intro fid hfid
    obtain ⟨e1, e2, _⟩ := md_chainFields h innerId dec fid hfid
    unfold chainIdsFuel
    rw [e1, e2]
    cases hd : (heapGet h fid).isDecorator
    · simp [hd]
    · simp only [hd, if_true]
      have hwlt : (heapGet h fid).wraps.getD 0 < fid := hwf fid hfid hd
      rw [ih ((heapGet h fid).wraps.getD 0) (by omega)]

theorem chainTags_md (h : List FuncObj) (innerId : Nat) (dec : FuncObj) (fid : Nat)
    (hwf : WF h) (hfid : fid < h.length) :
    chainTags (_makeDecorator h innerId dec).1 fid = chainTags h fid := by
  unfold chainTags chainIds
  rw [chainIdsFuel_md h innerId dec hwf (fid + 1) fid hfid]
  apply List.map_congr_left
  intro i hi
  obtain ⟨hile, _⟩ := chainIdsFuel_mem h hwf (fid + 1) fid i hi
  exact (md_chainFields h innerId dec i (lt_of_le_of_lt hile hfid)).2.2

theorem chainIdsFuel_succ (h : List FuncObj) (fid fuel : Nat) :
    chainIdsFuel h fid (fuel + 1) =
      if (heapGet h fid).isDecorator then
        fid :: chainIdsFuel h ((heapGet h fid).wraps.getD 0) fuel
      else [] := rfl

theorem chainIds_md_new (h : List FuncObj) (innerId : Nat) (dec : FuncObj)
    (hwf : WF h) (hj : innerId < h.length) :
    chainIds (_makeDecorator h innerId dec).1 h.length = h.length :: chainIds h innerId := by
  unfold chainIds
  rw [chainIdsFuel_succ, md_get_new]
  show h.length :: chainIdsFuel (_makeDecorator h innerId dec).1 innerId h.length =
    h.length :: chainIdsFuel h innerId (innerId + 1)
  rw [chainIdsFuel_md h innerId dec hwf h.length innerId hj,
    chainIdsFuel_congr h hwf h.length innerId (innerId + 1) hj (Nat.lt_succ_self innerId)]

theorem chainTags_md_new (h : List FuncObj) (innerId : Nat) (dec : FuncObj)
    (hwf : WF h) (hj : innerId < h.length) :
    chainTags (_makeDecorator h innerId dec).1 h.length = dec.tag :: chainTags h innerId := by
  unfold chainTags
  rw [chainIds_md_new h innerId dec hwf hj]
  simp only [List.map_cons]
  congr 1
  · rw [md_get_new]
  · apply List.map_congr_left
    intro i hi
    unfold chainIds at hi
    obtain ⟨hile, _⟩ := chainIdsFuel_mem h hwf (innerId + 1) innerId i hi
    exact (md_chainFields h innerId dec i (lt_of_le_of_lt hile hj)).2.2

theorem chainIdsFuel_pairwise (h : List FuncObj) (hwf : WF h) :
    ∀ fuel fid, List.Pairwise (fun a b => b < a) (chainIdsFuel h fid fuel) := by
  intro fuel
  induction fuel with
  | zero => intro fid; simp [chainIdsFuel]
  | succ fuel ih =>
    intro fid
    rw [chainIdsFuel_succ]
    cases hd : (heapGet h fid).isDecorator
    · simp
    · simp only [if_true]
      refine List.Pairwise.cons ?_ (ih ((heapGet h fid).wraps.getD 0))
      intro b hb
      have hwlt : (heapGet h fid).wraps.getD 0 < fid := hwf fid (isDec_lt h fid hd) hd
      obtain ⟨hble, _⟩ := chainIdsFuel_mem h hwf fuel ((heapGet h fid).wraps.getD 0) b hb
      omega

theorem chainIds_nodup (h : List FuncObj) (hwf : WF h) (fid : Nat) :
    (chainIds h fid).Nodup := by
  unfold chainIds
  exact (chainIdsFuel_pairwise h hwf (fid + 1) fid).imp (fun hab => Nat.ne_of_gt hab)

theorem chain'_wrapper_transfer (h1 h2 : List FuncObj) :
    ∀ l : List Nat,
      (∀ b ∈ l.tail, (heapGet h2 b).wrapper = (heapGet h1 b).wrapper) →
      List.Chain' (fun a b => (heapGet h1 b).wrapper = some a) l →
      List.Chain' (fun a b => (heapGet h2 b).wrapper = some a) l := by
  intro l
  induction l with
  | nil => intro _ _; exact List.chain'_nil
  | cons x l ih =>
    intro hw hc
    rw [List.chain'_cons'] at hc ⊢
    constructor
    · intro y hy
      have hyl : y ∈ l := List.mem_of_mem_head? hy
      rw [hw y (by simpa using hyl)]
      exact hc.1 y hy
    · refine ih ?_ hc.2
      intro b hb
      exact hw b (by simpa using List.tail_subset l hb)

theorem applyOp_cases (st : QState) (fid : Nat) (op : WrapOp) :
    applyOp st fid op = (st, fid) ∨
    (∃ dec : FuncObj, dec.tag = some (tagOf op) ∧
      _isDecoratedWithTag st.heap fid (tagOf op) = false ∧
      (applyOp st fid op).2 = st.heap.length ∧
      (applyOp st fid op).1.heap = (_makeDecorator st.heap fid dec).1) := by
  cases op
  case trace =>
    by_cases hc : (!st.debug || _isDecoratedWithTag st.heap fid ("trace")) = true
    · left
      simp [applyOp, _traceDecorator, hc]
    · right
      simp only [Bool.or_eq_true, Bool.not_eq_true', not_or, Bool.not_eq_true] at hc
      refine ⟨{ tag := some ("trace")
                recursionDepth := 0
                funcName :=
                  if (heapGet st.heap fid).name = "" then ("anonymous function")
                  else (heapGet st.heap fid).name }, rfl, hc.2, ?_, ?_⟩ <;>
        simp [applyOp, _traceDecorator, hc.1, hc.2, md_snd]
  case time =>
    by_cases hc : (!st.debug || _isDecoratedWithTag st.heap fid ("time")) = true
    · left
      simp [applyOp, _timeDecorator, hc]
    · right
      simp only [Bool.or_eq_true, Bool.not_eq_true', not_or, Bool.not_eq_true] at hc
      refine ⟨{ tag := some ("time")
                funcName :=
                  if (heapGet st.heap fid).name = "" then ("anonymous function")
                  else (heapGet st.heap fid).name }, rfl, hc.2, ?_, ?_⟩ <;>
        simp [applyOp, _timeDecorator, hc.1, hc.2, md_snd]
  case breakBefore =>
    by_cases hc : (!st.debug || _isDecoratedWithTag st.heap fid ("breakBefore")) = true
    · left
      simp [applyOp, _breakBeforeDecorator, hc]
    · right
      simp only [Bool.or_eq_true, Bool.not_eq_true', not_or, Bool.not_eq_true] at hc
      refine ⟨{ tag := some ("breakBefore")
                breakpointNum := some (st.breakpoints + 1) }, rfl, hc.2, ?_, ?_⟩ <;>
        simp [applyOp, _breakBeforeDecorator, hc.1, hc.2, md_snd]

theorem chainIds_plain (h : List FuncObj) (fid : Nat)
    (hd : (heapGet h fid).isDecorator = false) : chainIds h fid = [] := by
  unfold chainIds
  rw [chainIdsFuel_succ]
  simp [hd]

theorem chainIds_dec (h : List FuncObj) (fid : Nat)
    (hd : (heapGet h fid).isDecorator = true) :
    chainIds h fid = fid :: chainIdsFuel h ((heapGet h fid).wraps.getD 0) fid := by
  unfold chainIds
  rw [chainIdsFuel_succ]
  simp [hd]

theorem chainInv_applyOp (st : QState) (fid : Nat) (op : WrapOp) (h : ChainInv st fid) :
    ChainInv (applyOp st fid op).1 (applyOp st fid op).2 := by
  obtain ⟨hwf, hlt, hnd, hch⟩ := h
  rcases applyOp_cases st fid op with heq | ⟨dec, hdtag, hnmem, h2, h1⟩
  · rw [heq]
    exact ⟨hwf, hlt, hnd, hch⟩
  · rw [ChainInv, h2, h1]
    refine ⟨WF_md _ _ _ hwf hlt, ?_, ?_, ?_⟩
    · rw [md_length]
      omega
    · rw [chainTags_md_new _ _ _ hwf hlt]
      refine List.nodup_cons.mpr ⟨?_, hnd⟩
      rw [hdtag]
      intro hmem
      rw [(idwt_mem _ _ _).mpr hmem] at hnmem
      exact absurd hnmem (by decide)
    · rw [chainIds_md_new _ _ _ hwf hlt]
      rw [List.chain'_cons']
      constructor
      · intro y hy
        by_cases hd : (heapGet st.heap fid).isDecorator = true
        · rw [chainIds_dec st.heap fid hd] at hy
          simp only [List.head?_cons, Option.mem_def, Option.some.injEq] at hy
          subst hy
          rw [md_get_inner_dec _ _ _ hd]
        · rw [chainIds_plain st.heap fid (by simpa using hd)] at hy
          simp at hy
      · refine chain'_wrapper_transfer st.heap _ _ ?_ hch
        intro b hb
        by_cases hd : (heapGet st.heap fid).isDecorator = true
        · rw [chainIds_dec st.heap fid hd] at hb
          simp only [List.tail_cons] at hb
          have hwlt := hwf fid hlt hd
          obtain ⟨hble, hbdec⟩ := chainIdsFuel_mem st.heap hwf fid _ b hb
          exact md_wrapper_old st.heap fid dec b (isDec_lt _ _ hbdec) (by omega)
        · rw [chainIds_plain st.heap fid (by simpa using hd)] at hb
          simp at hb

theorem chainInv_applySeq (st : QState) (fid : Nat) (ops : List WrapOp)
    (h : ChainInv st fid) :
    ChainInv (applySeq st fid ops).1 (applySeq st fid ops).2 := by
  induction ops generalizing st fid with
  | nil => exact h
  | cons op ops ih => exact ih _ _ (chainInv_applyOp st fid op h)

theorem chainInv_start (st : QState) (fid : Nat) (hwf : WF st.heap)
    (hlt : fid < st.heap.length) (hplain : (heapGet st.heap fid).isDecorator = false) :
    ChainInv st fid := by
  have hnil := chainIds_plain st.heap fid hplain
  refine ⟨hwf, hlt, ?_, ?_⟩
  · unfold chainTags
    rw [hnil]
    simp
  · rw [hnil]
    exact List.chain'_nil

/- The shims never consult the debug flag: invocation behaviour is
   independent of it. -/

theorem pairFst (a : QState) (b : Except String JSVal) : (a, b).1 = a := rfl

theorem pairSnd (a : QState) (b : Except String JSVal) : (a, b).2 = b := rfl

theorem heap_withDebug (b : Bool) (st : QState) : (withDebug b st).heap = st.heap := rfl

theorem elapsed_withDebug (b : Bool) (st : QState) :
    (withDebug b st).elapsedUs = st.elapsedUs := rfl

theorem setRD_withDebug (b : Bool) (st : QState) (fid : Nat) (d : Int) :
    setRD (withDebug b st) fid d = withDebug b (setRD st fid d) := rfl

theorem write_withDebug (b : Bool) (st : QState) (toks : List String) :
    write (withDebug b st) toks = withDebug b (write st toks) := rfl

theorem trap_withDebug (b : Bool) (st : QState) :
    breakpointTrap (withDebug b st) = withDebug b (breakpointTrap st) := rfl

theorem callChain_debug (base : JSList → Except String JSVal) (args : JSList) (b : Bool) :
    ∀ fuel st fid,
      callChain base args fuel (withDebug b st) fid =
        (withDebug b (callChain base args fuel st fid).1,
          (callChain base args fuel st fid).2) := by
  intro fuel
  induction fuel with
  | zero => intro st fid; rfl
  | succ fuel ih =>
    intro st fid
    unfold callChain
    simp only [heap_withDebug, elapsed_withDebug]
    by_cases hd : (heapGet st.heap fid).isDecorator = true
    · rw [if_pos hd, if_pos hd]
      by_cases ht : (heapGet st.heap fid).tag = some ("trace")
      · rw [if_pos ht, if_pos ht]
        cases hm : mapPretty args with
        | error e => simp only [hm]; rfl
        | ok argStrs =>
          simp only [hm]
          rw [setRD_withDebug, write_withDebug, ih]
          simp only [pairFst, pairSnd]
          split
          · rfl
          · split
            · rfl
            · rw [write_withDebug, setRD_withDebug]
              simp only [heap_withDebug]
      · rw [if_neg ht, if_neg ht]
        by_cases ht2 : (heapGet st.heap fid).tag = some ("time")
        · rw [if_pos ht2, if_pos ht2, ih]
          simp only [pairFst, pairSnd]
          split
          · rfl
          · rw [write_withDebug]
            simp only [elapsed_withDebug]
        · rw [if_neg ht2, if_neg ht2]
          by_cases ht3 : (heapGet st.heap fid).tag = some ("breakBefore")
          · rw [if_pos ht3, if_pos ht3, write_withDebug, trap_withDebug, ih]
          · rw [if_neg ht3, if_neg ht3]
    · rw [if_neg hd, if_neg hd]

/- Single-step reductions of callChain. -/

theorem write_heap (st : QState) (L : List String) : (write st L).heap = st.heap := rfl

theorem setRD_heap (st : QState) (fid : Nat) (d : Int) :
    (setRD st fid d).heap = st.heap.set fid { heapGet st.heap fid with recursionDepth := d } := rfl

theorem callChain_plain (base : JSList → Except String JSVal) (args : JSList) (fuel : Nat)
    (st : QState) (fid : Nat) (hplain : (heapGet st.heap fid).isDecorator = false) :
    callChain base args (fuel + 1) st fid = (st, base args) := by
  unfold callChain
  rw [if_neg (by simp [hplain])]

theorem callChain_trace_over_plain (base : JSList → Except String JSVal) (args : JSList)
    (st : QState) (fid bid : Nat) (ss : List String) (fuel : Nat)
    (hdec : (heapGet st.heap fid).isDecorator = true)
    (htag : (heapGet st.heap fid).tag = some ("trace"))
    (hwr : (heapGet st.heap fid).wraps = some bid)
    (hplain : (heapGet st.heap bid).isDecorator = false)
    (hne : bid ≠ fid)
    (hargs : mapPretty args = .ok ss) :
    callChain base args (fuel + 2) st fid =
      (let d1 : Int := (heapGet st.heap fid).recursionDepth + 1
       let ts := (heapGet st.heap fid).funcName ++ "(" ++ String.intercalate (", ") ss ++ ")" ++
         (if 1 < d1 then (" [" ++ toString d1 ++ "]") else (""))
       let st2 := write (setRD st fid d1) ["Entering", ts]
       match base args with
       | .error e => (st2, .error e)
       | .ok v =>
         match _prettyPrint v with
         | .error e => (st2, .error e)
         | .ok rs =>
           (setRD (write st2 ["Leaving", ts, "->", rs]) fid (d1 - 1), .ok v)) := by
  have hfid := isDec_lt st.heap fid hdec
  show callChain base args (fuel + 1 + 1) st fid = _
  conv_lhs => rw [callChain]
  rw [if_pos hdec, if_pos htag, hwr]
  simp only [hargs, Option.getD_some]
  rw [callChain_plain base args fuel _ bid
    (by simp only [write_heap, setRD_heap]
        rw [heapGet_set_ne st.heap fid bid _ (Ne.symm hne)]
        exact hplain)]
  simp only [pairFst, pairSnd]
  cases hb : base args with
  | error e => simp only [hb]
  | ok v =>
    simp only [hb]
    cases hp : _prettyPrint v with
    | error e => simp only [hp]
    | ok rs =>
      simp only [hp]
      simp only [write_heap, setRD_heap]
      rw [heapGet_set_self st.heap fid _ hfid]

/-- C2 counterexample: the claim that the trace shim's recursionDepth
returns to its pre-call value when the wrapped callable raises fails on
the code: q.js lines 123-133 have no finally, so a propagated exception
skips the decrement on line 132.  Calling the traced f with a throwing
body leaves the counter at 1 instead of its pre-call value 0. -/
theorem c2_throw_skips_decrement_cex :
    (heapGet stTraced.heap 1).recursionDepth = 0 ∧
    (callChain (fun _ => .error ("boom")) .nil 2 stTraced 1).2 = .error ("boom") ∧
    (heapGet (callChain (fun _ => .error ("boom")) .nil 2 stTraced 1).1.heap 1).recursionDepth
      = 1 := by
  refine ⟨rfl, rfl, rfl⟩

/-- C2 (amended): for a trace shim over a plain callable, recursionDepth
is incremented before delegating; when the wrapped callable returns
normally (and arguments and result pretty-print), the shim logs the
Leaving line, decrements, and the counter returns to its pre-call value;
when the wrapped callable raises, the exception propagates out of the
shim, the decrement is skipped, and the counter stays one above its
pre-call value. -/
theorem c2_depth_accounting (base : JSList → Except String JSVal) (args : JSList)
    (st : QState) (fid bid : Nat) (ss : List String) (fuel : Nat)
    (hdec : (heapGet st.heap fid).isDecorator = true)
    (htag : (heapGet st.heap fid).tag = some ("trace"))
    (hwr : (heapGet st.heap fid).wraps = some bid)
    (hplain : (heapGet st.heap bid).isDecorator = false)
    (hne : bid ≠ fid)
    (hargs : mapPretty args = .ok ss) :
    (∀ v rs, base args = .ok v → _prettyPrint v = .ok rs →
      (callChain base args (fuel + 2) st fid).2 = .ok v ∧
      (heapGet (callChain base args (fuel + 2) st fid).1.heap fid).recursionDepth =
        (heapGet st.heap fid).recursionDepth) ∧
    (∀ e, base args = .error e →
      (callChain base args (fuel + 2) st fid).2 = .error e ∧
      (heapGet (callChain base args (fuel + 2) st fid).1.heap fid).recursionDepth =
        (heapGet st.heap fid).recursionDepth + 1) := by
  have hfid := isDec_lt st.heap fid hdec
  have hred := callChain_trace_over_plain base args st fid bid ss fuel hdec htag hwr hplain hne hargs
  constructor
  · intro v rs hv hrs
    rw [hred]
    simp only [hv, hrs]
    refine ⟨trivial, ?_⟩
    simp only [write_heap, setRD_heap]
    rw [heapGet_set_self]
    · simp
    · simpa using hfid
  · intro e he
    rw [hred]
    simp only [he]
    refine ⟨trivial, ?_⟩
    simp only [write_heap, setRD_heap]
    rw [heapGet_set_self st.heap fid _ hfid]

/-- C2 witness: the amended statement applied to the concrete traced f
with a normally returning body. -/
theorem c2_depth_accounting_witness :
    (heapGet stTraced.heap 1).isDecorator = true ∧
    ((callChain (fun _ => .ok (.num 120)) .nil 2 stTraced 1).2 = .ok (.num 120) ∧
      (heapGet (callChain (fun _ => .ok (.num 120)) .nil 2 stTraced 1).1.heap 1).recursionDepth =
        (heapGet stTraced.heap 1).recursionDepth) := by
  refine ⟨by decide, ?_⟩
  exact (c2_depth_accounting (fun _ => .ok (.num 120)) .nil stTraced 1 0 [] 0
    (by decide) (by decide) (by decide) (by decide) (by decide) rfl).1 (.num 120) ("120") rfl rfl

/-- C1: applying an instrumentation decorator whose tag already occurs in
the function's decorator chain is a no-op returning the decorated
function unchanged, and consequently every function produced by a
sequence of wrap operations from a plain callable has a chain whose
records carry pairwise distinct tags. -/
theorem c1_tag_idempotence (st : QState) (fid : Nat)
    (hwf : WF st.heap) (hlt : fid < st.heap.length) :
    (∀ op : WrapOp, some (tagOf op) ∈ chainTags st.heap fid → applyOp st fid op = (st, fid)) ∧
    ((heapGet st.heap fid).isDecorator = false →
      ∀ ops : List WrapOp,
        (chainTags (applySeq st fid ops).1.heap (applySeq st fid ops).2).Nodup) := by
  constructor
  · intro op hmem
    have hi : _isDecoratedWithTag st.heap fid (tagOf op) = true := (idwt_mem _ _ _).mpr hmem
    cases op
    · simp only [tagOf] at hi
      simp [applyOp, _traceDecorator, hi]
    · simp only [tagOf] at hi
      simp [applyOp, _timeDecorator, hi]
    · simp only [tagOf] at hi
      simp [applyOp, _breakBeforeDecorator, hi]
  · intro hplain ops
    exact (chainInv_applySeq st fid ops (chainInv_start st fid hwf hlt hplain)).2.2.1

/-- C1 witness: re-tracing the already traced f is a no-op, and the chain
built by trace, time, trace has distinct tags. -/
theorem c1_tag_idempotence_witness :
    (WF stTraced.heap ∧ 1 < stTraced.heap.length) ∧
    applyOp stTraced 1 WrapOp.trace = (stTraced, 1) ∧
    (chainTags (applySeq stPlain 0 [WrapOp.trace, WrapOp.time, WrapOp.trace]).1.heap
      (applySeq stPlain 0 [WrapOp.trace, WrapOp.time, WrapOp.trace]).2).Nodup := by
  refine ⟨⟨by decide, by decide⟩, ?_, ?_⟩
  · exact (c1_tag_idempotence stTraced 1 (by decide) (by decide)).1 WrapOp.trace (by decide)
  · exact (c1_tag_idempotence stPlain 0 (by decide) (by decide)).2 (by decide)
      [WrapOp.trace, WrapOp.time, WrapOp.trace]

/-- C9: when the wrapped callable is itself a decorator record,
_makeDecorator mutates it in place, pointing its wrapper property at the
fresh outer record (so wrapping an already-decorated function is not
side-effect-free on its input), and in every chain built by successive
wrap operations from a plain callable each non-outermost record's wrapper
refers to the record immediately outside it. -/
theorem c9_wrapper_backref (h : List FuncObj) (innerId : Nat) (dec : FuncObj)
    (hdec : (heapGet h innerId).isDecorator = true) :
    (heapGet (_makeDecorator h innerId dec).1 innerId =
        { heapGet h innerId with wrapper := some h.length } ∧
      ((heapGet h innerId).wrapper ≠ some h.length →
        heapGet (_makeDecorator h innerId dec).1 innerId ≠ heapGet h innerId)) ∧
    (∀ (st : QState) (fid : Nat), WF st.heap → fid < st.heap.length →
      (heapGet st.heap fid).isDecorator = false →
      ∀ ops : List WrapOp,
        List.Chain' (fun a b => (heapGet (applySeq st fid ops).1.heap b).wrapper = some a)
          (chainIds (applySeq st fid ops).1.heap (applySeq st fid ops).2)) := by
  refine ⟨⟨md_get_inner_dec h innerId dec hdec, ?_⟩, ?_⟩
  · intro hne heq
    rw [md_get_inner_dec h innerId dec hdec] at heq
    have h2 := congrArg FuncObj.wrapper heq
    exact hne h2.symm
  · intro st fid hwf hlt hplain ops
    exact (chainInv_applySeq st fid ops (chainInv_start st fid hwf hlt hplain)).2.2.2

/-- C9 witness: wrapping the traced f mutates record 1 in place, and the
trace-then-time chain carries correct back-references. -/
theorem c9_wrapper_backref_witness :
    (heapGet stTraced.heap 1).isDecorator = true ∧
    heapGet (_makeDecorator stTraced.heap 1 { tag := some ("time") }).1 1 =
      { heapGet stTraced.heap 1 with wrapper := some stTraced.heap.length } ∧
    List.Chain'
      (fun a b => (heapGet (applySeq stPlain 0 [WrapOp.trace, WrapOp.time]).1.heap b).wrapper
        = some a)
      (chainIds (applySeq stPlain 0 [WrapOp.trace, WrapOp.time]).1.heap
        (applySeq stPlain 0 [WrapOp.trace, WrapOp.time]).2) := by
  refine ⟨by decide, ?_, ?_⟩
  · exact (c9_wrapper_backref stTraced.heap 1 { tag := some ("time") } (by decide)).1.1
  · exact (c9_wrapper_backref stTraced.heap 1 { tag := some ("time") } (by decide)).2
      stPlain 0 (by decide) (by decide) (by decide) [WrapOp.trace, WrapOp.time]

/-- C10: on a heap whose wraps links strictly decrease (the acyclicity
shape of every chain this module builds, terminating in a non-decorator),
the _isDecoratedWithTag walk terminates: every fuel beyond the start id
returns the same boolean, that boolean witnesses membership of the tag in
the chain, and the walk visits pairwise distinct records. -/
theorem c10_walk_terminates (h : List FuncObj) (tag : String) (fid : Nat) (hwf : WF h) :
    ∃ b : Bool,
      (∀ fuel, fid < fuel → isDecWithTagFuel h tag fid fuel = b) ∧
      _isDecoratedWithTag h fid tag = b ∧
      (b = true ↔ some tag ∈ chainTags h fid) ∧
      (chainIds h fid).Nodup := by
  refine ⟨_isDecoratedWithTag h fid tag, ?_, rfl, idwt_mem h fid tag, chainIds_nodup h hwf fid⟩
  intro fuel hf
  exact idwtFuel_congr h tag hwf fuel fid (fid + 1) hf (Nat.lt_succ_self fid)

/-- C10 witness: the termination statement applied to the concrete traced
chain. -/
theorem c10_walk_terminates_witness :
    WF stTraced.heap ∧
    ∃ b : Bool,
      (∀ fuel, 1 < fuel → isDecWithTagFuel stTraced.heap ("trace") 1 fuel = b) ∧
      _isDecoratedWithTag stTraced.heap 1 ("trace") = b ∧
      (b = true ↔ some ("trace") ∈ chainTags stTraced.heap 1) ∧
      (chainIds stTraced.heap 1).Nodup :=
  ⟨by decide, c10_walk_terminates stTraced.heap ("trace") 1 (by decide)⟩

theorem lengthProp_ok (v : JSVal) (hv : v ≠ JSVal.undefined) (hv2 : v ≠ JSVal.null) :
    ∃ t, lengthProp v = .ok t := by
  cases v
  case undefined => exact absurd rfl hv
  case null => exact absurd rfl hv2
  all_goals exact ⟨_, rfl⟩

/-- C3 counterexample: _prettyPrint raises a TypeError on undefined (the
stringify result is undefined, so reading its length on q.js line 106
throws) and on null (reading null.length on line 108 throws), instead of
falling back to a generic rendering. -/
theorem c3_prettyPrint_raises_cex :
    _prettyPrint JSVal.undefined = .error ("TypeError: undefined has no properties") ∧
    _prettyPrint JSVal.null = .error ("TypeError: null has no properties") := ⟨rfl, rfl⟩

/-- C3 (amended): _prettyPrint returns a string for every value whose
JSON rendering is available and which is not null; for undefined and for
functions (whose structured rendering is unavailable) and for null it
raises a TypeError instead - there is no generic fallback. -/
theorem c3_prettyPrint_behaviour (v : JSVal) :
    (∀ s, jsonStringify v = some s → v ≠ JSVal.null → ∃ out, _prettyPrint v = .ok out) ∧
    (_prettyPrint JSVal.undefined = .error ("TypeError: undefined has no properties") ∧
      _prettyPrint JSVal.null = .error ("TypeError: null has no properties") ∧
      ∀ a, _prettyPrint (JSVal.func a) =
        .error ("TypeError: undefined has no properties")) := by
  constructor
  · intro s hs hnull
    have hund : v ≠ JSVal.undefined := by
      intro e
      subst e
      simp [jsonStringify] at hs
    obtain ⟨t, ht⟩ := lengthProp_ok v hund hnull
    unfold _prettyPrint
    rw [hs, ht]
    cases t with
    | none => exact ⟨_, rfl⟩
    | some lv => exact ⟨_, rfl⟩
  · exact ⟨rfl, rfl, fun a => rfl⟩

/-- C3 witness: the amended statement applied to a short string. -/
theorem c3_prettyPrint_behaviour_witness :
    jsonStringify (JSVal.str ("hi")) = some ("\"hi\"") ∧
    (∃ out, _prettyPrint (JSVal.str ("hi")) = .ok out) :=
  ⟨rfl, (c3_prettyPrint_behaviour (JSVal.str ("hi"))).1 ("\"hi\"") rfl
    (fun h => JSVal.noConfusion h)⟩

/-- C6 counterexample: a function value exposes a length property (its
arity), yet _prettyPrint raises on it instead of producing any string, so
no " (length N)" suffix is appended for it. -/
theorem c6_func_length_cex :
    lengthProp (JSVal.func 2) = .ok (some (.num 2)) ∧
    _prettyPrint (JSVal.func 2) = .error ("TypeError: undefined has no properties") :=
  ⟨rfl, rfl⟩

/-- C6 (amended): for every value whose JSON rendering is available, a
rendering longer than 15 characters is truncated to its first 12 plus an
ellipsis, and when the value also exposes a length the " (length N)"
suffix is appended after the possible truncation. -/
theorem c6_truncation (v : JSVal) (s : String) (hs : jsonStringify v = some s) :
    (15 < s.length → _prettyPrint v = .ok (s.take 12 ++ "..." ++ lenSuffix v)) ∧
    (∀ lv, lengthProp v = .ok (some lv) →
      _prettyPrint v = .ok ((if 15 < s.length then s.take 12 ++ "..." else s) ++
        " (length " ++ jsDisplay lv ++ ")")) := by
  constructor
  · intro hlen
    have hund : v ≠ JSVal.undefined := by
      intro e
      subst e
      simp [jsonStringify] at hs
    have hnull : v ≠ JSVal.null := by
      intro e
      subst e
      simp only [jsonStringify, Option.some.injEq] at hs
      rw [← hs] at hlen
      exact absurd hlen (by decide)
    obtain ⟨t, ht⟩ := lengthProp_ok v hund hnull
    unfold _prettyPrint
    rw [hs, ht]
    simp only [if_pos hlen]
    cases t with
    | none =>
      have hls : lenSuffix v = "" := by
        unfold lenSuffix
        rw [ht]
      rw [hls, String.append_empty]
    | some lv =>
      have hls : lenSuffix v = " (length " ++ jsDisplay lv ++ ")" := by
        unfold lenSuffix
        rw [ht]
      rw [hls]
      simp only [← String.append_assoc]
  · intro lv hlv
    unfold _prettyPrint
    rw [hs, hlv]

/-- C6 witness: the amended statement applied to a 21-character string,
whose rendering (with quotes) has 23 characters. -/
theorem c6_truncation_witness :
    jsonStringify (JSVal.str ("this is a long string")) = some ("\"this is a long string\"") ∧
    15 < ("\"this is a long string\"" : String).length ∧
    _prettyPrint (JSVal.str ("this is a long string")) =
      .ok (("\"this is a long string\"" : String).take 12 ++ "..." ++
        lenSuffix (JSVal.str ("this is a long string"))) ∧
    _prettyPrint (JSVal.str ("this is a long string")) = .ok ("\"this is a l... (length 21)") := by
  refine ⟨rfl, by decide, ?_, rfl⟩
  exact (c6_truncation (JSVal.str ("this is a long string")) ("\"this is a long string\"") rfl).1
    (by decide)

/-- C5 counterexample: with the debug flag set, q propagates the
pretty-printer's TypeError on undefined instead of returning the value;
identity on the value therefore does not hold for every input. -/
theorem c5_q_propagates_cex :
    stPlain.debug = true ∧
    q stPlain ("file.js") ("1") JSVal.undefined =
      (stPlain, .error ("TypeError: undefined has no properties")) := ⟨rfl, rfl⟩

/-- C5 (amended): with the debug flag unset q returns the value unchanged
with no side effect; with it set, q returns the value and logs one line
whenever the value pretty-prints, and propagates the pretty-printer's
TypeError (undefined, null, functions) instead of returning. -/
theorem c5_q_identity (st : QState) (file line : String) (value : JSVal) :
    (st.debug = false → q st file line value = (st, .ok value)) ∧
    (st.debug = true →
      (∀ s, _prettyPrint value = .ok s →
        q st file line value =
          (write st [file ++ ":" ++ line ++ ": " ++ s], .ok value)) ∧
      (∀ e, _prettyPrint value = .error e → q st file line value = (st, .error e))) := by
  constructor
  · intro h
    simp [q, h]
  · intro h
    constructor
    · intro s hs
      simp [q, h, hs]
    · intro e he
      simp [q, h, he]

/-- C5 witness: the amended statement at a disabled-state call and at an
enabled-state call on the number 7. -/
theorem c5_q_identity_witness :
    (withDebug false stPlain).debug = false ∧
    q (withDebug false stPlain) ("f.js") ("3") (JSVal.num 7) =
      (withDebug false stPlain, .ok (JSVal.num 7)) ∧
    stPlain.debug = true ∧ _prettyPrint (JSVal.num 7) = .ok ("7") ∧
    q stPlain ("f.js") ("3") (JSVal.num 7) =
      (write stPlain ["f.js" ++ ":" ++ "3" ++ ": " ++ "7"], .ok (JSVal.num 7)) := by
  refine ⟨rfl, ?_, rfl, rfl, ?_⟩
  · exact (c5_q_identity (withDebug false stPlain) ("f.js") ("3") (JSVal.num 7)).1 rfl
  · exact ((c5_q_identity stPlain ("f.js") ("3") (JSVal.num 7)).2 rfl).1 ("7") rfl

/-- C7: an attacher invoked with an argument count other than one or two
fails at once with a TypeError naming the operation, and neither the
state nor any scope or container is touched: the very state passed in is
returned. -/
theorem c7_arity_guard (name : String)
    (dec : QState → Option Nat → Option String → QState × Except String (Option Nat))
    (st : QState) (args : List DecArg)
    (hlen : args.length < 1 ∨ 2 < args.length) :
    _decorate name dec st args = (st, .error (name ++ "() takes one or two arguments")) ∧
    trace st args = (st, .error ("trace" ++ "() takes one or two arguments")) ∧
    time st args = (st, .error ("time" ++ "() takes one or two arguments")) ∧
    breakBefore st args = (st, .error ("breakBefore" ++ "() takes one or two arguments")) := by
  have hc : (args.length < 1 || 2 < args.length) = true := by
    simp only [Bool.or_eq_true, decide_eq_true_eq]
    exact hlen
  refine ⟨?_, ?_, ?_, ?_⟩
  · unfold _decorate
    rw [if_pos hc]
  · unfold trace _decorate
    rw [if_pos hc]
  · unfold time _decorate
    rw [if_pos hc]
  · unfold breakBefore _decorate
    rw [if_pos hc]

/-- C7 witness: zero and three arguments both fail with the trace usage
error, leaving the state unchanged. -/
theorem c7_arity_guard_witness :
    (([] : List DecArg).length < 1 ∨ 2 < ([] : List DecArg).length) ∧
    trace stPlain [] = (stPlain, .error ("trace" ++ "() takes one or two arguments")) ∧
    trace stPlain [.fn 0, .str ("a"), .str ("b")] =
      (stPlain, .error ("trace" ++ "() takes one or two arguments")) := by
  refine ⟨by decide, ?_, ?_⟩
  · exact (c7_arity_guard ("trace") _traceDecoratorJS stPlain [] (by decide)).2.1
  · exact (c7_arity_guard ("trace") _traceDecoratorJS stPlain [.fn 0, .str ("a"), .str ("b")]
      (by decide)).2.1

/-- C8 counterexample: the numeric field of a log line is left-padded
(right-justified, as %4.1f does), not right-padded: at 3.2 elapsed
seconds the line reads " 3.2s x", not "3.2 s x" as the claim's wording
prescribes. -/
theorem c8_padding_cex :
    lineOf ["x"] 3200000 = " 3.2s x\n" ∧
    c8ClaimLine ["x"] 3200000 = "3.2 s x\n" ∧
    lineOf ["x"] 3200000 ≠ c8ClaimLine ["x"] 3200000 := by
  refine ⟨rfl, rfl, by decide⟩

/-- C8 (amended): write appends exactly one line to the sink: the tokens
joined by single spaces, prefixed by the elapsed seconds since process
start reduced modulo 100, rendered with one decimal digit and left-padded
(right-justified) to 4 characters before the "s " unit suffix, and
terminated by a newline; no other state component changes. -/
theorem c8_line_format (st : QState) (tokens : List String) :
    (write st tokens).log =
      st.log ++
        [padLeft (fmtTenths ((st.elapsedUs % 100000000 + 50000) / 100000)) 4 ++ "s " ++
          String.intercalate (" ") tokens ++ "\n"] ∧
    (write st tokens).log.length = st.log.length + 1 ∧
    (write st tokens).heap = st.heap ∧
    (write st tokens).debug = st.debug ∧
    (write st tokens).elapsedUs = st.elapsedUs := by
  refine ⟨rfl, ?_, rfl, rfl, rfl⟩
  simp [write]

/-- C4: with the debug flag unset at wrap time, each decorator returns
the original callable unchanged and installs nothing; and since the
installed shims never consult the flag, clearing it after wrapping leaves
an installed chain's call behaviour (heap, log, trap effects and result)
exactly as with the flag set. -/
theorem c4_debug_latched (st : QState) (fid : Nat) :
    (st.debug = false →
      (∀ fn, _traceDecorator st fid fn = (st, fid)) ∧
      (∀ fn, _timeDecorator st fid fn = (st, fid)) ∧
      _breakBeforeDecorator st fid = (st, fid)) ∧
    (∀ (base : JSList → Except String JSVal) (args : JSList) (fuel : Nat),
      (callChain base args fuel (withDebug false st) fid).1.heap =
          (callChain base args fuel (withDebug true st) fid).1.heap ∧
      (callChain base args fuel (withDebug false st) fid).1.log =
          (callChain base args fuel (withDebug true st) fid).1.log ∧
      (callChain base args fuel (withDebug false st) fid).1.trapped =
          (callChain base args fuel (withDebug true st) fid).1.trapped ∧
      (callChain base args fuel (withDebug false st) fid).2 =
          (callChain base args fuel (withDebug true st) fid).2) := by
  constructor
  · intro h
    refine ⟨?_, ?_, ?_⟩
    · intro fn
      simp [_traceDecorator, h]
    · intro fn
      simp [_timeDecorator, h]
    · simp [_breakBeforeDecorator, h]
  · intro base args fuel
    rw [callChain_debug base args false fuel st fid, callChain_debug base args true fuel st fid]
    exact ⟨rfl, rfl, rfl, rfl⟩

/-- C4 witness: wrapping with the flag unset is the identity, and calling
the traced f yields the same log and result whether the flag was cleared
after wrapping or not. -/
theorem c4_debug_latched_witness :
    (withDebug false stTraced).debug = false ∧
    _traceDecorator (withDebug false stTraced) 0 none = (withDebug false stTraced, 0) ∧
    (callChain (fun _ => .ok (.num 1)) .nil 2 (withDebug false stTraced) 1).1.log =
      (callChain (fun _ => .ok (.num 1)) .nil 2 (withDebug true stTraced) 1).1.log ∧
    (callChain (fun _ => .ok (.num 1)) .nil 2 (withDebug false stTraced) 1).2 =
      (callChain (fun _ => .ok (.num 1)) .nil 2 (withDebug true stTraced) 1).2 := by
  refine ⟨rfl, ?_, ?_, ?_⟩
  · exact ((c4_debug_latched (withDebug false stTraced) 0).1 rfl).1 none
  · exact ((c4_debug_latched stTraced 1).2 (fun _ => .ok (.num 1)) .nil 2).2.1
  · exact ((c4_debug_latched stTraced 1).2 (fun _ => .ok (.num 1)) .nil 2).2.2.2
